import Mathlib

/-!
Shallow embedding of `src/tuple.rs` from the `rtc_rust` repository:
a four-component homogeneous-coordinate value (`Tuple`) with its
arithmetic operators, approximate equality, classification queries and
geometric operations.  The `f64` fields are modelled by real numbers
(exact arithmetic; IEEE-754 rounding and special values are outside the
model).  Every definition follows the Rust source line by line; the only
exception is `approx_eq`, whose body lives in the crate root that is not
among the provided sources, and which is therefore modelled from the
specification's epsilon policy.
-/

/-- Modelled from the spec: the shared comparison helper `approx_eq`,
called as `super::approx_eq` in `tuple.rs`, is defined in the crate root
(`lib.rs`), which is not among the provided sources.  The spec's epsilon
policy: two floating-point numbers are considered equal when their
absolute difference is less than a fixed absolute epsilon of `1e-5`. -/
def EPSILON : ℝ := 1e-5

/-- Modelled from the spec: two numbers are approximately equal when the
absolute value of their difference is less than `EPSILON`. -/
def approx_eq (a b : ℝ) : Prop := |a - b| < EPSILON

/-- The `Tuple` struct of `tuple.rs`: four `f64` fields `x`, `y`, `z`, `w`,
modelled over the reals. -/
structure Tuple where
  x : ℝ
  y : ℝ
  z : ℝ
  w : ℝ

namespace Tuple

/-- The `PartialEq` impl: `x`, `y`, `z` compared with `approx_eq`,
`w` compared with `==`. -/
def eq (a b : Tuple) : Prop :=
  approx_eq a.x b.x ∧ approx_eq a.y b.y ∧ approx_eq a.z b.z ∧ a.w = b.w

/-- The `Add` impl: component-wise sum of all four fields. -/
def add (a b : Tuple) : Tuple :=
  ⟨a.x + b.x, a.y + b.y, a.z + b.z, a.w + b.w⟩

/-- The `Sub` impl: component-wise difference of all four fields. -/
def sub (a b : Tuple) : Tuple :=
  ⟨a.x - b.x, a.y - b.y, a.z - b.z, a.w - b.w⟩

/-- The `Neg` impl: component-wise sign flip of all four fields. -/
def neg (a : Tuple) : Tuple :=
  ⟨-a.x, -a.y, -a.z, -a.w⟩

/-- The `Mul<f64>` impl: each field multiplied by the scalar. -/
def mul (a : Tuple) (c : ℝ) : Tuple :=
  ⟨a.x * c, a.y * c, a.z * c, a.w * c⟩

/-- The `Div<f64>` impl: each field divided by the scalar. -/
noncomputable def div (a : Tuple) (c : ℝ) : Tuple :=
  ⟨a.x / c, a.y / c, a.z / c, a.w / c⟩

/-- `Tuple::new`: the generic four-field constructor. -/
def new (x y z w : ℝ) : Tuple := ⟨x, y, z, w⟩

/-- `Tuple::is_point`: `w == 1.0`. -/
def is_point (t : Tuple) : Prop := t.w = 1

/-- `Tuple::is_vector`: `w == 0.0`. -/
def is_vector (t : Tuple) : Prop := t.w = 0

/-- `Tuple::point`: the point factory with `w = 1.0`. -/
def point (x y z : ℝ) : Tuple := ⟨x, y, z, 1⟩

/-- `Tuple::vector`: the vector factory with `w = 0.0`. -/
def vector (x y z : ℝ) : Tuple := ⟨x, y, z, 0⟩

/-- `Tuple::mag`: square root of the sum of the squares of all four
fields (`powi(2)` is squaring). -/
noncomputable def mag (t : Tuple) : ℝ :=
  Real.sqrt (t.x ^ 2 + t.y ^ 2 + t.z ^ 2 + t.w ^ 2)

/-- `Tuple::norm`: each field divided by the magnitude. -/
noncomputable def norm (t : Tuple) : Tuple :=
  ⟨t.x / t.mag, t.y / t.mag, t.z / t.mag, t.w / t.mag⟩

/-- `Tuple::dot`: sum of pairwise field products across all four
components. -/
def dot (a b : Tuple) : ℝ :=
  a.x * b.x + a.y * b.y + a.z * b.z + a.w * b.w

/-- `Tuple::cross`: built from the `x`, `y`, `z` components only, through
the `vector` factory. -/
def cross (a b : Tuple) : Tuple :=
  vector (a.y * b.z - a.z * b.y) (a.z * b.x - a.x * b.z)
    (a.x * b.y - a.y * b.x)

end Tuple

/-- C1: the equality predicate on two tuples holds if and only if the
`x`, `y` and `z` fields are each approximately equal under the fixed
absolute epsilon `1e-5` (absolute difference strictly below the epsilon)
and the `w` fields are exactly equal. -/
theorem eq_iff_componentwise (a b : Tuple) :
    Tuple.eq a b ↔
      (|a.x - b.x| < 1e-5 ∧ |a.y - b.y| < 1e-5 ∧ |a.z - b.z| < 1e-5 ∧
        a.w = b.w) := by
  simp [Tuple.eq, approx_eq, EPSILON]

/-- C2: `point x y z` equals `new x y z 1`, is classified as a point and
not as a vector; `vector x y z` equals `new x y z 0`, is classified as a
vector and not as a point. -/
theorem point_vector_factories (x y z : ℝ) :
    Tuple.point x y z = Tuple.new x y z 1 ∧
      (Tuple.point x y z).is_point ∧ ¬ (Tuple.point x y z).is_vector ∧
    Tuple.vector x y z = Tuple.new x y z 0 ∧
      (Tuple.vector x y z).is_vector ∧ ¬ (Tuple.vector x y z).is_point := by
  refine ⟨rfl, rfl, ?_, rfl, rfl, ?_⟩ <;>
    simp [Tuple.point, Tuple.vector, Tuple.is_point, Tuple.is_vector]

/-- C3: subtraction is the component-wise difference of all four fields,
and therefore point minus point is a vector (w = 0), point minus vector
is a point (w = 1), and vector minus vector is a vector (w = 0). -/
theorem sub_componentwise_and_classifies :
    (∀ a b : Tuple,
      a.sub b = ⟨a.x - b.x, a.y - b.y, a.z - b.z, a.w - b.w⟩) ∧
    ∀ x₁ y₁ z₁ x₂ y₂ z₂ : ℝ,
      ((Tuple.point x₁ y₁ z₁).sub (Tuple.point x₂ y₂ z₂)).is_vector ∧
      ((Tuple.point x₁ y₁ z₁).sub (Tuple.vector x₂ y₂ z₂)).is_point ∧
      ((Tuple.vector x₁ y₁ z₁).sub (Tuple.vector x₂ y₂ z₂)).is_vector := by
  refine ⟨fun a b => rfl, fun x₁ y₁ z₁ x₂ y₂ z₂ => ?_⟩
  refine ⟨?_, ?_, ?_⟩ <;>
    simp [Tuple.sub, Tuple.point, Tuple.vector, Tuple.is_point,
      Tuple.is_vector]

/-- C4: the cross product is computed only from the x, y, z components by
the right-hand-rule formula, and its result always has w = 0, hence is
classified as a vector, whatever the w fields of the inputs are. -/
theorem cross_formula_and_vector (a b : Tuple) :
    a.cross b =
      ⟨a.y * b.z - a.z * b.y, a.z * b.x - a.x * b.z,
        a.x * b.y - a.y * b.x, 0⟩ ∧
    (a.cross b).is_vector :=
  ⟨rfl, rfl⟩

/-- C5: the magnitude is the square root of the sum of the squares of
all four fields, and in particular the magnitude of the vector (1,2,3)
is √14 and the magnitude of (−1,−2,−3) is √14 as well. -/
theorem mag_euclidean_norm :
    (∀ t : Tuple,
      t.mag = Real.sqrt (t.x ^ 2 + t.y ^ 2 + t.z ^ 2 + t.w ^ 2)) ∧
    (Tuple.vector 1 2 3).mag = Real.sqrt 14 ∧
    (Tuple.vector (-1) (-2) (-3)).mag = Real.sqrt 14 := by
  refine ⟨fun t => rfl, ?_, ?_⟩ <;> norm_num [Tuple.mag, Tuple.vector]

/-- Helper: the sum of squares of a tuple's fields is nonnegative. -/
theorem sum_sq_nonneg (t : Tuple) :
    0 ≤ t.x ^ 2 + t.y ^ 2 + t.z ^ 2 + t.w ^ 2 := by positivity

/-- Helper: a vector with some nonzero component among x, y, z has
positive sum of squares. -/
theorem sum_sq_pos_of_nonzero (v : Tuple)
    (hnz : ¬ (v.x = 0 ∧ v.y = 0 ∧ v.z = 0)) :
    0 < v.x ^ 2 + v.y ^ 2 + v.z ^ 2 + v.w ^ 2 := by
  have hx := sq_nonneg v.x
  have hy := sq_nonneg v.y
  have hz := sq_nonneg v.z
  have hw := sq_nonneg v.w
  rcases not_and_or.mp hnz with h | h
  · have := sq_pos_of_ne_zero h
    linarith
  rcases not_and_or.mp h with h | h
  · have := sq_pos_of_ne_zero h
    linarith
  · have := sq_pos_of_ne_zero h
    linarith

/-- Helper: for a tuple with positive sum of squares, the magnitude of
its normalization is exactly 1 in the exact real model. -/
theorem mag_norm_eq_one (v : Tuple)
    (hs : 0 < v.x ^ 2 + v.y ^ 2 + v.z ^ 2 + v.w ^ 2) :
    (v.norm).mag = 1 := by
  have hm : v.mag ^ 2 = v.x ^ 2 + v.y ^ 2 + v.z ^ 2 + v.w ^ 2 :=
    Real.sq_sqrt hs.le
  have hmpos : 0 < v.mag := Real.sqrt_pos.mpr hs
  show Real.sqrt ((v.x / v.mag) ^ 2 + (v.y / v.mag) ^ 2 +
    (v.z / v.mag) ^ 2 + (v.w / v.mag) ^ 2) = 1
  rw [div_pow, div_pow, div_pow, div_pow, div_add_div_same,
    div_add_div_same, div_add_div_same, hm,
    div_self (by linarith), Real.sqrt_one]

/-- C6: normalization divides each of the four fields by the magnitude,
and for every nonzero vector (w = 0, not all of x, y, z zero) the
magnitude of the normalization is 1.0 within the fixed tolerance. -/
theorem norm_componentwise_and_unit :
    (∀ t : Tuple,
      t.norm = ⟨t.x / t.mag, t.y / t.mag, t.z / t.mag, t.w / t.mag⟩) ∧
    ∀ v : Tuple, v.is_vector → ¬ (v.x = 0 ∧ v.y = 0 ∧ v.z = 0) →
      |(v.norm).mag - 1| < EPSILON := by
  refine ⟨fun t => rfl, fun v _ hnz => ?_⟩
  rw [mag_norm_eq_one v (sum_sq_pos_of_nonzero v hnz)]
  norm_num [EPSILON]

/-- Witness for C6: the concrete nonzero vector (1, 2, 3). -/
theorem norm_componentwise_and_unit_witness :
    (Tuple.vector 1 2 3).is_vector ∧
    ¬ ((Tuple.vector 1 2 3).x = 0 ∧ (Tuple.vector 1 2 3).y = 0 ∧
        (Tuple.vector 1 2 3).z = 0) ∧
    |((Tuple.vector 1 2 3).norm).mag - 1| < EPSILON :=
  ⟨rfl, by norm_num [Tuple.vector],
    norm_componentwise_and_unit.2 (Tuple.vector 1 2 3) rfl
      (by norm_num [Tuple.vector])⟩

/-- Helper: the equality predicate is reflexive, since each coordinate
difference is 0, whose absolute value is below the epsilon. -/
theorem tuple_eq_refl (t : Tuple) : Tuple.eq t t := by
  refine ⟨?_, ?_, ?_, rfl⟩ <;> norm_num [approx_eq, EPSILON]

/-- Helper: in the exact real model the cross product of a and b is the
exact component-wise negation of the cross product of b and a. -/
theorem cross_neg_swap (a b : Tuple) : a.cross b = (b.cross a).neg := by
  simp only [Tuple.cross, Tuple.neg, Tuple.vector, Tuple.mk.injEq]
  refine ⟨by ring, by ring, by ring, by norm_num⟩

/-- C7: the cross product is anti-commutative — cross(a, b) equals the
negation of cross(b, a) under the type's equality predicate. -/
theorem cross_anticommutative (a b : Tuple) :
    Tuple.eq (a.cross b) ((b.cross a).neg) := by
  rw [cross_neg_swap a b]
  exact tuple_eq_refl _

/-- C9: negation is self-inverse — negating a tuple twice yields a value
equal to the original under the type's equality predicate. -/
theorem neg_neg_eq_self (a : Tuple) : Tuple.eq ((a.neg).neg) a := by
  have h : (a.neg).neg = a := by cases a; simp [Tuple.neg]
  rw [h]
  exact tuple_eq_refl a

/-- C10: classification is preserved by negation — whenever is_vector
holds of v (w = 0), it also holds of the negation of v; in the exact
real model the negated w is 0 itself, matching the IEEE-754 rule that
-0.0 compares equal to 0.0. -/
theorem is_vector_neg (v : Tuple) (h : v.is_vector) :
    (v.neg).is_vector := by
  simp only [Tuple.is_vector, Tuple.neg] at h ⊢
  rw [h, neg_zero]

/-- Witness for C10: the concrete vector (1, 2, 3). -/
theorem is_vector_neg_witness :
    (Tuple.vector 1 2 3).is_vector ∧
    ((Tuple.vector 1 2 3).neg).is_vector :=
  ⟨rfl, is_vector_neg (Tuple.vector 1 2 3) rfl⟩
